import Mathlib

/-!
Verification development for the neyroevnet image-generation service.

The Python source consists of `image_service.py` (aspect-ratio selection,
the Gemini retry loop, canvas fitting in `save_image`, the black-border
scan, and the JSON metadata store) and `server.py` (HTTP handlers).
Each definition below is a shallow embedding of the corresponding source
function; effectful pieces (the HTTP response of each attempt, the
directory listing, the metadata file) are passed in explicitly.
Machine floats of the source are embedded as exact rationals.
-/

namespace Neyroevnet

/-! ### Aspect-ratio selection (`image_service.get_aspect_ratio`)

The Python code iterates over the string list
`['1:1','2:3','3:2','3:4','4:3','4:5','5:4','9:16','16:9','21:9']`,
splitting each entry at `:` and parsing the two integers.  We store each
entry together with its parsed pair, the split/parse done once here. -/

def allowedRatios : List (String × ℕ × ℕ) :=
  [("1:1", 1, 1), ("2:3", 2, 3), ("3:2", 3, 2), ("3:4", 3, 4), ("4:3", 4, 3),
   ("4:5", 4, 5), ("5:4", 5, 4), ("9:16", 9, 16), ("16:9", 16, 9), ("21:9", 21, 9)]

def ratioVal (p : String × ℕ × ℕ) : ℚ := (p.2.1 : ℚ) / (p.2.2 : ℚ)

def arDiff (target : ℚ) (p : String × ℕ × ℕ) : ℚ := |ratioVal p - target|

/-- The loop of `get_aspect_ratio`: running best name and best difference.
`none` stands for the initial `best_diff = float('inf')`, against which the
first comparison `diff < best_diff` always succeeds (the target is finite). -/
def arFold (target : ℚ) : List (String × ℕ × ℕ) → String → Option ℚ → String
  | [], best, _ => best
  | p :: rest, _, none => arFold target rest p.1 (some (arDiff target p))
  | p :: rest, best, some d =>
    if arDiff target p < d then arFold target rest p.1 (some (arDiff target p))
    else arFold target rest best (some d)

def get_aspect_ratio (width height : ℕ) : String :=
  arFold ((width : ℚ) / (height : ℚ)) allowedRatios "1:1" none

/-- Spec-side definition, following the claim's words: the first element of
the list minimizing the absolute difference to the target. -/
def firstArgmin (target : ℚ) : List (String × ℕ × ℕ) → Option (String × ℕ × ℕ)
  | [] => none
  | p :: rest =>
    match firstArgmin target rest with
    | none => some p
    | some q => if arDiff target q < arDiff target p then some q else some p

/-- `p` occurs in `l`, minimizes the difference to `target` over `l`, and every
element strictly before `p`'s occurrence has strictly larger difference. -/
def FirstMin (target : ℚ) (l : List (String × ℕ × ℕ)) (p : String × ℕ × ℕ) : Prop :=
  ∃ i : ℕ, l[i]? = some p
    ∧ (∀ q ∈ l, arDiff target p ≤ arDiff target q)
    ∧ ∀ j, j < i → ∀ q, l[j]? = some q → arDiff target p < arDiff target q

/-- The better of an optional candidate and the current best, by difference;
used to relate the source fold to `firstArgmin`. -/
def arPick (target : ℚ) (o : Option (String × ℕ × ℕ)) (bp : String × ℕ × ℕ) : String :=
  match o with
  | none => bp.1
  | some q => if arDiff target q < arDiff target bp then q.1 else bp.1

/-! ### The Gemini retry loop (`image_service.generate_image_with_retry`)

One attempt sends the request and classifies the HTTP response:
`429` sleeps 10 s and continues (with no check of the attempt budget);
`400` raises `Exception("Validation error: ...")` inside the `try`, which the
generic `except Exception` handler catches (backoff retry, terminal wrap on
the last attempt); any other non-2xx status makes `raise_for_status` throw
`HTTPStatusError`, whose handler re-raises `Exception("HTTP Error: ...")` —
an exception raised inside an `except` clause propagates out of the loop;
a 2xx response is searched for inline image data, a missing image raising
`Exception("No image in response")` into the generic handler. -/

/-- One `parts[]` element of a candidate.  `inlineData`/`inline_data` is
`none` when the key is absent or falsy, otherwise `some d` where `d` is the
truthy `data` field (`none` if `data` is absent or falsy); `data` models the
`"data" in part` direct format. -/
structure GeminiPart where
  inlineData : Option (Option String)
  inline_data : Option (Option String)
  data : Option String
deriving DecidableEq

/-- Lines 224-240: `inline = part.get("inlineData") or part.get("inline_data")`;
if `inline` and `inline.get("data")` return it, else fall through to
`if "data" in part`.  (The `elif` asking for `mimeType` and `data` after
`data` was falsy can never fire.) -/
def partImage (p : GeminiPart) : Option String :=
  match p.inlineData.orElse (fun _ => p.inline_data) with
  | some (some d) => some d
  | _ => p.data

/-- The candidate scan of lines 211-240: first part with image data wins. -/
def extract_image (candidates : List (List GeminiPart)) : Option String :=
  candidates.flatten.findSome? partImage

/-- One upstream HTTP response, with the fields the code reads from it:
the status, the parsed `error.message` consulted on 400 (default applied),
the parsed `candidates` consulted on 2xx, and the raw text body. -/
structure GeminiResponse where
  status : ℕ
  errorMessage : String
  candidates : List (List GeminiPart)
  body : String
deriving DecidableEq

/-- Exceptions that reach the generic `except Exception` handler. -/
inductive GenExc
  | validationError (msg : String)
  | noImageInResponse
deriving DecidableEq

/-- Terminal errors of `generate_image_with_retry`:
`httpError` is `Exception("HTTP Error: {status} — {body}")` re-raised from
the `HTTPStatusError` handler; `failedAfter` is
`Exception("Gemini API generation failed after {max_retries} attempts: ...")`. -/
inductive GenError
  | httpError (status : ℕ) (body : String)
  | failedAfter (attempts : ℕ) (last : GenExc)
deriving DecidableEq

/-- The ways a call can terminate.  `returnedNone` is the implicit `None`
returned when the `for` loop ends without `return` or `raise`. -/
inductive GenResult
  | image (b64 : String)
  | error (e : GenError)
  | returnedNone
deriving DecidableEq

inductive AttemptOutcome
  | done (b64 : String)
  | rateLimitSleep
  | raiseNow (status : ℕ) (body : String)
  | caught (e : GenExc)
deriving DecidableEq

/-- Classification of one attempt, in source order: the inline 429 check,
the 400 branch, `raise_for_status` (throws for any non-2xx), then the
image extraction. -/
def attemptOutcome (r : GeminiResponse) : AttemptOutcome :=
  if r.status = 429 then .rateLimitSleep
  else if r.status = 400 then .caught (.validationError r.errorMessage)
  else if r.status < 200 ∨ 300 ≤ r.status then .raiseNow r.status r.body
  else
    match extract_image r.candidates with
    | some b => .done b
    | none => .caught .noImageInResponse

/-- The `for attempt in range(max_retries)` loop.  `responses i` is the HTTP
response received at attempt `i`.  The second component collects the
`asyncio.sleep` durations, in order.  First argument of the recursion is the
current `attempt`, second the number of loop iterations left. -/
def retryFrom (responses : ℕ → GeminiResponse) (max_retries : ℕ) :
    ℕ → ℕ → GenResult × List ℕ
  | _, 0 => (.returnedNone, [])
  | attempt, n + 1 =>
    match attemptOutcome (responses attempt) with
    | .done b => (.image b, [])
    | .rateLimitSleep =>
      let r := retryFrom responses max_retries (attempt + 1) n
      (r.1, 10 :: r.2)
    | .raiseNow s body => (.error (.httpError s body), [])
    | .caught e =>
      if attempt < max_retries - 1 then
        let r := retryFrom responses max_retries (attempt + 1) n
        (r.1, 2 ^ attempt :: r.2)
      else (.error (.failedAfter max_retries e), [])

def generate_image_with_retry (responses : ℕ → GeminiResponse) (max_retries : ℕ) :
    GenResult × List ℕ :=
  retryFrom responses max_retries 0 max_retries

/-- All attempts rate-limited. -/
def all429 : ℕ → GeminiResponse := fun _ => ⟨429, "", [], ""⟩

/-- All attempts rejected with HTTP 400. -/
def all400 : ℕ → GeminiResponse := fun _ => ⟨400, "bad request", [], "body"⟩

/-- All attempts failing with HTTP 500. -/
def all500 : ℕ → GeminiResponse := fun _ => ⟨500, "", [], "server boom"⟩

/-! ### Canvas fitting (`image_service.save_image`, lines 326-352)

`ratio = min(width / w0, height / h0)`,
`new_size = (int(w0 * ratio), int(h0 * ratio))` — Python `int()` truncates,
which is the floor for these non-negative values — then a black
`(width, height)` canvas and a centered paste at
`((width - newW) // 2, (height - newH) // 2)` (Python `//` is floor
division, `Int.fdiv`). -/

def fitScale (sw sh tw th : ℕ) : ℚ := min ((tw : ℚ) / (sw : ℚ)) ((th : ℚ) / (sh : ℚ))

def fitNewW (sw sh tw th : ℕ) : ℤ := ⌊(sw : ℚ) * fitScale sw sh tw th⌋

def fitNewH (sw sh tw th : ℕ) : ℤ := ⌊(sh : ℚ) * fitScale sw sh tw th⌋

def pasteX (sw sh tw th : ℕ) : ℤ := ((tw : ℤ) - fitNewW sw sh tw th).fdiv 2

def pasteY (sw sh tw th : ℕ) : ℤ := ((th : ℤ) - fitNewH sw sh tw th).fdiv 2

/-- Geometry produced by `save_image` for a `(sw, sh)` source and `(tw, th)`
target: resized dimensions, paste offsets, and the output canvas size
(`Image.new('RGB', (width, height))`, so always exactly the target). -/
structure FitResult where
  newW : ℤ
  newH : ℤ
  px : ℤ
  py : ℤ
  outW : ℤ
  outH : ℤ
deriving DecidableEq

def save_image_geometry (sw sh tw th : ℕ) : FitResult :=
  ⟨fitNewW sw sh tw th, fitNewH sw sh tw th,
   pasteX sw sh tw th, pasteY sw sh tw th, (tw : ℤ), (th : ℤ)⟩

/-! ### Black-border scan (`image_service.fill_black_borders`, lines 90-138) -/

/-- An RGB image: dimensions and a pixel map to the three channels. -/
structure RGBImage where
  width : ℕ
  height : ℕ
  pixel : ℕ → ℕ → ℕ × ℕ × ℕ

def black_threshold : ℕ := 30

/-- `any(... for c in range(3))` over one pixel's channels. -/
def pixelNonBlack (p : ℕ × ℕ × ℕ) : Bool :=
  black_threshold < p.1 || black_threshold < p.2.1 || black_threshold < p.2.2

def rowNonBlack (img : RGBImage) (y : ℕ) : Bool :=
  (List.range img.width).any fun x => pixelNonBlack (img.pixel x y)

def colNonBlack (img : RGBImage) (x : ℕ) : Bool :=
  (List.range img.height).any fun y => pixelNonBlack (img.pixel x y)

/-- `for i in range(s, s + n): if p i: return i` — first hit, scanning up. -/
def scanFirst (p : ℕ → Bool) : ℕ → ℕ → Option ℕ
  | _, 0 => none
  | s, n + 1 => if p s then some s else scanFirst p (s + 1) n

/-- `for i in range(n - 1, -1, -1): if p i: return i` — first hit, scanning down. -/
def scanLast (p : ℕ → Bool) : ℕ → Option ℕ
  | 0 => none
  | n + 1 => if p n then some n else scanLast p n

/-- `scan_top`: first non-black row from the top, else 0. -/
def scan_top (img : RGBImage) : ℕ :=
  (scanFirst (rowNonBlack img) 0 img.height).getD 0

/-- `scan_bottom`: returns `height - 1 - y` for the first non-black row `y`
scanning upward from the bottom, else 0. -/
def scan_bottom (img : RGBImage) : ℕ :=
  match scanLast (rowNonBlack img) img.height with
  | some y => img.height - 1 - y
  | none => 0

def scan_left (img : RGBImage) : ℕ :=
  (scanFirst (colNonBlack img) 0 img.width).getD 0

def scan_right (img : RGBImage) : ℕ :=
  match scanLast (colNonBlack img) img.width with
  | some x => img.width - 1 - x
  | none => 0

/-- Lines 123-138: the four thicknesses are computed and logged; both the
`if not (top or bottom or left or right)` branch and the fall-through
return the image unchanged (detection only, no inpainting). -/
def fill_black_borders (img : RGBImage) : RGBImage :=
  let top := scan_top img
  let bottom := scan_bottom img
  let left := scan_left img
  let right := scan_right img
  if ¬(top ≠ 0 ∨ bottom ≠ 0 ∨ left ≠ 0 ∨ right ≠ 0) then img else img

/-- A 2×2 image whose top row is black and second row white. -/
def imgTopBorder : RGBImage :=
  ⟨2, 2, fun _ y => if y = 0 then (0, 0, 0) else (255, 255, 255)⟩

/-- A 2×2 image that is entirely black. -/
def imgAllBlack : RGBImage := ⟨2, 2, fun _ _ => (0, 0, 0)⟩

/-! ### Metadata store (`load_metadata`, `add_image_metadata`, `list_images`) -/

/-- One persisted record, the fields written by `add_image_metadata`. -/
structure ImageRecord where
  width : ℕ
  height : ℕ
  prompt : String
  model : String
  generation_time : ℚ
  created : String
deriving DecidableEq

/-- The state of `metadata.json`: absent, unparseable, or a JSON object. -/
inductive MetaFile
  | missing
  | malformed
  | valid (entries : List (String × ImageRecord))
deriving DecidableEq

/-- `load_metadata`: a missing file or a parse failure yields `{}`. -/
def load_metadata : MetaFile → List (String × ImageRecord)
  | .missing => []
  | .malformed => []
  | .valid m => m

/-- Python dict insertion `metadata[filename] = {...}`: overwrite in place the
existing key, else append. -/
def dictInsert : List (String × ImageRecord) → String → ImageRecord →
    List (String × ImageRecord)
  | [], k, v => [(k, v)]
  | (k', v') :: rest, k, v =>
    if k' = k then (k, v) :: rest else (k', v') :: dictInsert rest k v

/-- `add_image_metadata`: read-parse-or-empty, insert by filename, write back. -/
def add_image_metadata (fs : MetaFile) (filename : String) (width height : ℕ)
    (prompt model : String) (generation_time : ℚ) (created : String) : MetaFile :=
  .valid (dictInsert (load_metadata fs) filename
    ⟨width, height, prompt, model, generation_time, created⟩)

/-- A numeric field of a listing entry: the stored number, or the literal
string `'Unknown'` the code substitutes when the metadata key is absent. -/
inductive MetaField (α : Type)
  | known (a : α)
  | unknown
deriving DecidableEq

/-- One element of the `images` array built by `list_images`. -/
structure ListedImage where
  filename : String
  size : ℕ
  width : MetaField ℕ
  height : MetaField ℕ
  prompt : String
  model : String
  generation_time : ℚ
  created : String
deriving DecidableEq

/-- `metadata.get(filename, {})` followed by the per-field `.get` defaults:
`'Unknown'` for width/height/prompt/model/created and `0` for
`generation_time`. -/
def listedEntryOf (meta : List (String × ImageRecord)) (name : String) (size : ℕ) :
    ListedImage :=
  match List.lookup name meta with
  | some r => ⟨name, size, .known r.width, .known r.height, r.prompt, r.model,
               r.generation_time, r.created⟩
  | none => ⟨name, size, .unknown, .unknown, "Unknown", "Unknown", 0, "Unknown"⟩

/-- `filename.endswith('.png')`, over the character list. -/
def endsWithPng (s : String) : Bool :=
  decide (s.data.reverse.take 4 = ".png".data.reverse)

/-- One insertion step of a stable descending sort on the `created` key:
the new element goes after every already-placed element whose key is not
strictly smaller, which is exactly the order
`images.sort(key=..., reverse=True)` produces (CPython's sort is stable). -/
def insertByCreatedDesc (e : ListedImage) : List ListedImage → List ListedImage
  | [] => [e]
  | x :: xs => if x.created < e.created then e :: x :: xs else x :: insertByCreatedDesc e xs

def sortByCreatedDesc (l : List ListedImage) : List ListedImage :=
  l.foldl (fun acc e => insertByCreatedDesc e acc) []

/-- `list_images` over the given directory contents (filename and size of
each regular file in `generated_images/`): keep `.png` files, join each with
its metadata, sort by `created` descending. -/
def list_images (files : List (String × ℕ)) (fs : MetaFile) : List ListedImage :=
  sortByCreatedDesc ((files.filter fun pr => endsWithPng pr.1).map
    fun pr => listedEntryOf (load_metadata fs) pr.1 pr.2)

/-- A record previously stored for `b.png`. -/
def recB : ImageRecord := ⟨9, 9, "q", "n", 2, "2024-01-01T00:00:00"⟩

/-- A metadata file already holding the `b.png` record. -/
def fsB : MetaFile := .valid [("b.png", recB)]

/-- A storage directory holding one file `a.png` of 5 bytes. -/
def demoFiles : List (String × ℕ) := [("a.png", 5)]

/-! ### Server handlers (`server.py`) -/

/-- `GET /api/images` (server.py lines 192-209) returns this hardcoded mock
list; it never consults the storage directory or `metadata.json`. -/
def api_list_images : List ListedImage :=
  [⟨"test_image.png", 1000, .known 512, .known 512, "Test image", "Test Model",
    0, "2025-01-01T00:00:00"⟩]

/-- Outcome of the input-handling slice of `POST /api/save_image`:
`saved d` proceeds to persist the decoded bytes `d`, `badRequest` is a 400
response, `serverError` the 500 produced by the outer `except`. -/
inductive SaveResponse
  | saved (decoded : String)
  | badRequest (msg : String)
  | serverError
deriving DecidableEq

/-- Python `s.split(',')`: split at every comma, keeping empty segments. -/
def pySplitComma : List Char → List Char → List (List Char)
  | [], acc => [acc.reverse]
  | c :: rest, acc =>
    if c = ',' then acc.reverse :: pySplitComma rest []
    else pySplitComma rest (c :: acc)

def splitComma (s : String) : List String := (pySplitComma s.data []).map String.mk

/-- `image_b64.startswith('data:image')`, over the character list. -/
def startsWithDataImage (s : String) : Bool :=
  decide (s.data.take 10 = "data:image".data)

/-- The validation, stripping and decoding steps of `api_save_image`
(server.py lines 133-150).  `decode` stands for `base64.b64decode`
(abstract: `none` when it raises).  `image_b64.split(',')[1]` is the second
comma-separated segment; when no comma exists the subscript raises
`IndexError`, which the outer handler turns into a 500. -/
def api_save_image (decode : String → Option String) (image_b64 : Option String) :
    SaveResponse :=
  match image_b64 with
  | none => .badRequest "No image data provided"
  | some s =>
    if s = "" then .badRequest "No image data provided"
    else
      let stripped : Option String :=
        if startsWithDataImage s then (splitComma s)[1]? else some s
      match stripped with
      | none => .serverError
      | some t =>
        match decode t with
        | none => .badRequest "Invalid base64 data"
        | some bytes => .saved bytes

/-- Modelled from the claim's words for C9: drop everything up to and
including the first comma. -/
def dropThroughFirstComma : List Char → Option (List Char)
  | [] => none
  | c :: rest => if c = ',' then some rest else dropThroughFirstComma rest

/-! ## Helper lemmas -/

theorem rat_abs_eval (q : ℚ) : |q| = if q < 0 then -q else q := by
  rcases lt_or_le q 0 with h | h
  · rw [abs_of_neg h, if_pos h]
  · rw [abs_of_nonneg h, if_neg (not_lt.mpr h)]

theorem attemptOutcome_400 (r : GeminiResponse) (h : r.status = 400) :
    attemptOutcome r = .caught (.validationError r.errorMessage) := by
  simp [attemptOutcome, h]

theorem attemptOutcome_other (r : GeminiResponse) (h429 : r.status ≠ 429)
    (h400 : r.status ≠ 400) (hne : r.status < 200 ∨ 300 ≤ r.status) :
    attemptOutcome r = .raiseNow r.status r.body := by
  simp [attemptOutcome, h429, h400, hne]

theorem retryFrom_caught_step (responses : ℕ → GeminiResponse) (mr a n : ℕ)
    (e : GenExc) (hc : attemptOutcome (responses a) = .caught e)
    (hlt : a < mr - 1) :
    retryFrom responses mr a (n + 1)
      = ((retryFrom responses mr (a + 1) n).1,
         2 ^ a :: (retryFrom responses mr (a + 1) n).2) := by
  simp [retryFrom, hc, hlt]

theorem retryFrom_caught_last (responses : ℕ → GeminiResponse) (mr a n : ℕ)
    (e : GenExc) (hc : attemptOutcome (responses a) = .caught e)
    (hge : ¬ a < mr - 1) :
    retryFrom responses mr a (n + 1) = (.error (.failedAfter mr e), []) := by
  simp [retryFrom, hc, hge]

theorem retryFrom_400_aux (responses : ℕ → GeminiResponse)
    (h : ∀ i, (responses i).status = 400) (mr : ℕ) :
    ∀ n a, a + n + 1 = mr →
      retryFrom responses mr a (n + 1)
        = (GenResult.error (.failedAfter mr
            (.validationError ((responses (a + n)).errorMessage))),
           (List.range' a n).map (fun t => 2 ^ t)) := by
  intro n
  induction n with
  | zero =>
    intro a ha
    exact retryFrom_caught_last responses mr a 0 _
      (attemptOutcome_400 _ (h a)) (by omega)
  | succ k ih =>
    intro a ha
    rw [retryFrom_caught_step responses mr a (k + 1) _
      (attemptOutcome_400 _ (h a)) (by omega), ih (a + 1) (by omega)]
    have hk : a + 1 + k = a + (k + 1) := by omega
    simp [List.range'_succ, hk]

theorem firstArgmin_ne_none (target : ℚ) (p : String × ℕ × ℕ)
    (rest : List (String × ℕ × ℕ)) : firstArgmin target (p :: rest) ≠ none := by
  cases hr : firstArgmin target rest with
  | none => simp [firstArgmin, hr]
  | some q =>
    by_cases hlt : arDiff target q < arDiff target p <;> simp [firstArgmin, hr, hlt]

theorem firstArgmin_spec (target : ℚ) :
    ∀ l : List (String × ℕ × ℕ), l ≠ [] →
      ∃ p, firstArgmin target l = some p ∧ FirstMin target l p := by
  intro l
  induction l with
  | nil => intro h; exact absurd rfl h
  | cons p rest ih =>
    intro _
    by_cases hrest : rest = []
    · subst hrest
      refine ⟨p, by simp [firstArgmin], 0, by simp, ?_, ?_⟩
      · intro q hq
        rcases List.mem_singleton.mp hq with rfl
        exact le_refl _
      · intro j hj
        omega
    · obtain ⟨q, hq, i, hi, hmin, hfirst⟩ := ih hrest
      by_cases hlt : arDiff target q < arDiff target p
      · refine ⟨q, by simp [firstArgmin, hq, hlt], i + 1, by simpa using hi, ?_, ?_⟩
        · intro r hr
          rcases List.mem_cons.mp hr with rfl | hr
          · exact le_of_lt hlt
          · exact hmin r hr
        · intro j hj r hjr
          cases j with
          | zero =>
            simp only [List.getElem?_cons_zero, Option.some.injEq] at hjr
            subst hjr
            exact hlt
          | succ j' =>
            exact hfirst j' (by omega) r (by simpa using hjr)
      · refine ⟨p, by simp [firstArgmin, hq, hlt], 0, by simp, ?_, ?_⟩
        · intro r hr
          rcases List.mem_cons.mp hr with rfl | hr
          · exact le_refl _
          · exact le_trans (not_lt.mp hlt) (hmin r hr)
        · intro j hj r hjr
          omega

theorem arPick_none (target : ℚ) (bp : String × ℕ × ℕ) :
    arPick target none bp = bp.1 := rfl

theorem arPick_some (target : ℚ) (q bp : String × ℕ × ℕ) :
    arPick target (some q) bp
      = if arDiff target q < arDiff target bp then q.1 else bp.1 := rfl

theorem arFold_eq_firstArgmin (target : ℚ) :
    ∀ (l : List (String × ℕ × ℕ)) (bp : String × ℕ × ℕ),
      arFold target l bp.1 (some (arDiff target bp))
        = arPick target (firstArgmin target l) bp := by
  intro l
  induction l with
  | nil => intro bp; simp [arFold, firstArgmin, arPick_none]
  | cons p rest ih =>
    intro bp
    cases hr : firstArgmin target rest with
    | none =>
      have hrest : rest = [] := by
        cases rest with
        | nil => rfl
        | cons a as => exact absurd hr (firstArgmin_ne_none target a as)
      subst hrest
      have hcons : firstArgmin target [p] = some p := by simp [firstArgmin]
      rw [hcons, arPick_some]
      by_cases hpb : arDiff target p < arDiff target bp <;>
        simp [arFold, hpb]
    | some q =>
      have hcons : firstArgmin target (p :: rest)
          = if arDiff target q < arDiff target p then some q else some p := by
        simp [firstArgmin, hr]
      by_cases hpb : arDiff target p < arDiff target bp
      · have hstep : arFold target (p :: rest) bp.1 (some (arDiff target bp))
            = arFold target rest p.1 (some (arDiff target p)) := by
          simp [arFold, hpb]
        have hih := ih p
        rw [hr, arPick_some] at hih
        rw [hstep, hih, hcons]
        by_cases hqp : arDiff target q < arDiff target p
        · rw [if_pos hqp, if_pos hqp, arPick_some, if_pos (lt_trans hqp hpb)]
        · rw [if_neg hqp, if_neg hqp, arPick_some, if_pos hpb]
      · have hstep : arFold target (p :: rest) bp.1 (some (arDiff target bp))
            = arFold target rest bp.1 (some (arDiff target bp)) := by
          simp [arFold, hpb]
        have hih := ih bp
        rw [hr, arPick_some] at hih
        rw [hstep, hih, hcons]
        by_cases hqp : arDiff target q < arDiff target p
        · rw [if_pos hqp, arPick_some]
        · have hqb : ¬ arDiff target q < arDiff target bp :=
            not_lt.mpr (le_trans (not_lt.mp hpb) (not_lt.mp hqp))
          rw [if_neg hqb, if_neg hqp, arPick_some, if_neg hpb]

theorem arFold_none_eq_firstArgmin (target : ℚ) (hd : String × ℕ × ℕ)
    (tl : List (String × ℕ × ℕ)) (b : String) (p : String × ℕ × ℕ)
    (hp : firstArgmin target (hd :: tl) = some p) :
    arFold target (hd :: tl) b none = p.1 := by
  have hfold : arFold target (hd :: tl) b none
      = arFold target tl hd.1 (some (arDiff target hd)) := rfl
  rw [hfold, arFold_eq_firstArgmin]
  cases hr : firstArgmin target tl with
  | none =>
    have hp2 : hd = p := by simpa [firstArgmin, hr] using hp
    subst hp2
    rw [arPick_none]
  | some q =>
    have hcons : firstArgmin target (hd :: tl)
        = if arDiff target q < arDiff target hd then some q else some hd := by
      simp [firstArgmin, hr]
    rw [hcons] at hp
    rw [arPick_some]
    by_cases hlt : arDiff target q < arDiff target hd
    · rw [if_pos hlt] at hp
      simp only [Option.some.injEq] at hp
      subst hp
      rw [if_pos hlt]
    · rw [if_neg hlt] at hp
      simp only [Option.some.injEq] at hp
      subst hp
      rw [if_neg hlt]

theorem scanFirst_some (p : ℕ → Bool) :
    ∀ n s y, scanFirst p s n = some y →
      p y = true ∧ s ≤ y ∧ y < s + n ∧ ∀ z, s ≤ z → z < y → p z = false := by
  intro n
  induction n with
  | zero => intro s y h; simp [scanFirst] at h
  | succ k ih =>
    intro s y h
    by_cases hp : p s
    · have hy : s = y := by simpa [scanFirst, hp] using h
      subst hy
      exact ⟨hp, le_refl _, by omega, fun z hz1 hz2 => absurd (lt_of_le_of_lt hz1 hz2)
        (lt_irrefl _)⟩
    · have h2 : scanFirst p (s + 1) k = some y := by simpa [scanFirst, hp] using h
      obtain ⟨h1, hsy, hyk, hall⟩ := ih (s + 1) y h2
      refine ⟨h1, by omega, by omega, fun z hz1 hz2 => ?_⟩
      by_cases hzs : z = s
      · subst hzs
        exact Bool.not_eq_true _ ▸ (by simpa using hp)
      · exact hall z (by omega) hz2

theorem scanFirst_eq_none (p : ℕ → Bool) :
    ∀ n s, (∀ z, s ≤ z → z < s + n → p z = false) → scanFirst p s n = none := by
  intro n
  induction n with
  | zero => intro s _; rfl
  | succ k ih =>
    intro s hall
    have hp : p s = false := hall s (le_refl _) (by omega)
    simp only [scanFirst, hp, Bool.false_eq_true, if_false]
    exact ih (s + 1) fun z hz1 hz2 => hall z (by omega) (by omega)

theorem scanLast_some (p : ℕ → Bool) :
    ∀ n y, scanLast p n = some y →
      p y = true ∧ y < n ∧ ∀ z, y < z → z < n → p z = false := by
  intro n
  induction n with
  | zero => intro y h; simp [scanLast] at h
  | succ k ih =>
    intro y h
    by_cases hp : p k
    · have hy : k = y := by simpa [scanLast, hp] using h
      subst hy
      exact ⟨hp, by omega, fun z hz1 hz2 => by omega⟩
    · have h2 : scanLast p k = some y := by simpa [scanLast, hp] using h
      obtain ⟨h1, hyk, hall⟩ := ih y h2
      refine ⟨h1, by omega, fun z hz1 hz2 => ?_⟩
      by_cases hzk : z = k
      · subst hzk
        exact Bool.not_eq_true _ ▸ (by simpa using hp)
      · exact hall z hz1 (by omega)

theorem scanLast_eq_none (p : ℕ → Bool) :
    ∀ n, (∀ z, z < n → p z = false) → scanLast p n = none := by
  intro n
  induction n with
  | zero => intro _; rfl
  | succ k ih =>
    intro hall
    have hp : p k = false := hall k (by omega)
    simp only [scanLast, hp, Bool.false_eq_true, if_false]
    exact ih fun z hz => hall z (by omega)

theorem lookup_dictInsert_self (l : List (String × ImageRecord)) (k : String)
    (v : ImageRecord) : List.lookup k (dictInsert l k v) = some v := by
  induction l with
  | nil => simp [dictInsert, List.lookup]
  | cons pr rest ih =>
    by_cases h : pr.1 = k
    · simp [dictInsert, h, List.lookup]
    · have : dictInsert (pr :: rest) k v = pr :: dictInsert rest k v := by
        cases pr with
        | mk k' v' => simp [dictInsert, h]
      rw [this]
      have hbeq : (k == pr.1) = false := by
        simp [Ne.symm h]
      cases pr with
      | mk k' v' => simpa [List.lookup, hbeq] using ih

theorem lookup_dictInsert_other (l : List (String × ImageRecord))
    (k k' : String) (v : ImageRecord) (h : k' ≠ k) :
    List.lookup k' (dictInsert l k v) = List.lookup k' l := by
  induction l with
  | nil =>
    have hb : (k' == k) = false := beq_eq_false_iff_ne.mpr h
    simp [dictInsert, List.lookup, hb]
  | cons pr rest ih =>
    cases pr with
    | mk a b =>
      by_cases ha : a = k
      · subst ha
        have hb : (k' == a) = false := beq_eq_false_iff_ne.mpr h
        simp [dictInsert, List.lookup, hb]
      · simp only [dictInsert, if_neg ha]
        by_cases hk' : k' = a
        · subst hk'
          simp [List.lookup]
        · have hbeq : (k' == a) = false := beq_eq_false_iff_ne.mpr hk'
          simp [List.lookup, hbeq, ih]

theorem insertByCreatedDesc_perm (e : ListedImage) (l : List ListedImage) :
    (insertByCreatedDesc e l).Perm (e :: l) := by
  induction l with
  | nil => exact List.Perm.refl _
  | cons x xs ih =>
    by_cases h : x.created < e.created
    · simp only [insertByCreatedDesc, if_pos h]
      exact List.Perm.refl _
    · simp only [insertByCreatedDesc, if_neg h]
      exact (ih.cons x).trans (List.Perm.swap e x xs)

theorem sortByCreatedDesc_perm_aux (l : List ListedImage) :
    ∀ acc, (l.foldl (fun acc e => insertByCreatedDesc e acc) acc).Perm (acc ++ l) := by
  induction l with
  | nil => intro acc; simp
  | cons x xs ih =>
    intro acc
    have h1 := ih (insertByCreatedDesc x acc)
    have h2 : (insertByCreatedDesc x acc ++ xs).Perm (acc ++ x :: xs) := by
      have h3 : (insertByCreatedDesc x acc ++ xs).Perm ((x :: acc) ++ xs) :=
        (insertByCreatedDesc_perm x acc).append_right xs
      exact h3.trans List.perm_middle.symm
    simpa using h1.trans h2

theorem sortByCreatedDesc_perm (l : List ListedImage) :
    (sortByCreatedDesc l).Perm l := by
  simpa using sortByCreatedDesc_perm_aux l []

theorem scan_top_some (img : RGBImage) (y0 : ℕ)
    (hs : scanFirst (rowNonBlack img) 0 img.height = some y0) :
    scan_top img = y0 := by
  simp [scan_top, hs]

theorem scan_top_none (img : RGBImage)
    (hs : scanFirst (rowNonBlack img) 0 img.height = none) :
    scan_top img = 0 := by
  simp [scan_top, hs]

theorem scan_bottom_some (img : RGBImage) (y0 : ℕ)
    (hs : scanLast (rowNonBlack img) img.height = some y0) :
    scan_bottom img = img.height - 1 - y0 := by
  simp [scan_bottom, hs]

theorem scan_bottom_none (img : RGBImage)
    (hs : scanLast (rowNonBlack img) img.height = none) :
    scan_bottom img = 0 := by
  simp [scan_bottom, hs]

theorem scan_left_some (img : RGBImage) (x0 : ℕ)
    (hs : scanFirst (colNonBlack img) 0 img.width = some x0) :
    scan_left img = x0 := by
  simp [scan_left, hs]

theorem scan_left_none (img : RGBImage)
    (hs : scanFirst (colNonBlack img) 0 img.width = none) :
    scan_left img = 0 := by
  simp [scan_left, hs]

theorem scan_right_some (img : RGBImage) (x0 : ℕ)
    (hs : scanLast (colNonBlack img) img.width = some x0) :
    scan_right img = img.width - 1 - x0 := by
  simp [scan_right, hs]

theorem scan_right_none (img : RGBImage)
    (hs : scanLast (colNonBlack img) img.width = none) :
    scan_right img = 0 := by
  simp [scan_right, hs]

theorem fitScale_nonneg (sw sh tw th : ℕ) : 0 ≤ fitScale sw sh tw th :=
  le_min (div_nonneg (Nat.cast_nonneg _) (Nat.cast_nonneg _))
    (div_nonneg (Nat.cast_nonneg _) (Nat.cast_nonneg _))

theorem fitNewW_nonneg (sw sh tw th : ℕ) : 0 ≤ fitNewW sw sh tw th :=
  Int.floor_nonneg.mpr (mul_nonneg (Nat.cast_nonneg _) (fitScale_nonneg sw sh tw th))

theorem fitNewH_nonneg (sw sh tw th : ℕ) : 0 ≤ fitNewH sw sh tw th :=
  Int.floor_nonneg.mpr (mul_nonneg (Nat.cast_nonneg _) (fitScale_nonneg sw sh tw th))

theorem fitNewW_le (sw sh tw th : ℕ) (hsw : 0 < sw) : fitNewW sw sh tw th ≤ (tw : ℤ) := by
  have hsw0 : (sw : ℚ) ≠ 0 := Nat.cast_ne_zero.mpr (by omega)
  have h1 : (sw : ℚ) * fitScale sw sh tw th ≤ (tw : ℚ) := by
    calc (sw : ℚ) * fitScale sw sh tw th
        ≤ (sw : ℚ) * ((tw : ℚ) / (sw : ℚ)) :=
          mul_le_mul_of_nonneg_left (min_le_left _ _) (Nat.cast_nonneg _)
      _ = (tw : ℚ) := by field_simp
  calc fitNewW sw sh tw th ≤ ⌊(tw : ℚ)⌋ := Int.floor_le_floor h1
    _ = (tw : ℤ) := Int.floor_natCast tw

theorem fitNewH_le (sw sh tw th : ℕ) (hsh : 0 < sh) : fitNewH sw sh tw th ≤ (th : ℤ) := by
  have hsh0 : (sh : ℚ) ≠ 0 := Nat.cast_ne_zero.mpr (by omega)
  have h1 : (sh : ℚ) * fitScale sw sh tw th ≤ (th : ℚ) := by
    calc (sh : ℚ) * fitScale sw sh tw th
        ≤ (sh : ℚ) * ((th : ℚ) / (sh : ℚ)) :=
          mul_le_mul_of_nonneg_left (min_le_right _ _) (Nat.cast_nonneg _)
      _ = (th : ℚ) := by field_simp
  calc fitNewH sw sh tw th ≤ ⌊(th : ℚ)⌋ := Int.floor_le_floor h1
    _ = (th : ℤ) := Int.floor_natCast th

theorem fdiv_two_bounds (a : ℤ) (h : 0 ≤ a) : 0 ≤ a.fdiv 2 ∧ a.fdiv 2 ≤ a := by
  refine ⟨Int.fdiv_nonneg h (by norm_num), ?_⟩
  rw [Int.fdiv_eq_ediv _ (by norm_num)]
  exact Int.ediv_le_self 2 h

theorem startsWithDataImage_ne_empty (s : String) (h : startsWithDataImage s = true) :
    s ≠ "" := by
  intro he
  subst he
  exact absurd h (by decide)

/-! ## Claims -/

/-- C1: when every attempt of `generate_image_with_retry` receives HTTP 429
with the default `max_retries = 3`, the code sleeps the 10-second cooldown
after each of the three attempts (including the last) and then falls off the
loop, returning `None` — it terminates with a non-error value instead of
raising the rate-limit error the spec (and the code's own unreachable
429 handler) intends. -/
theorem retry_429_exhaustion_returns_none :
    generate_image_with_retry all429 3 = (GenResult.returnedNone, [10, 10, 10]) := by
  decide

/-- C2 counterexample: for a 3×2 source fit into a 1024×1024 target the code's
`int()` truncation yields a scaled height of 682, while the claimed
`round(sh·scale)` is 683. -/
theorem fit_truncates_not_rounds :
    fitNewH 3 2 1024 1024 = 682
    ∧ round ((2 : ℚ) * fitScale 3 2 1024 1024) = 683
    ∧ (682 : ℤ) ≠ 683 := by
  refine ⟨?_, ?_, by decide⟩
  · norm_num [fitNewH, fitScale, min_def]
  · norm_num [fitScale, min_def, round_eq]

/-- C2 (amended): `save_image` scales the source by
`scale = min(tw/sw, th/sh)` and resizes to `(int(sw·scale), int(sh·scale))` —
`int()` truncation (the floor for these non-negative values), not `round` —
then pastes onto the black `tw×th` canvas at
`((tw − scaledW) // 2, (th − scaledH) // 2)`; the scaled dimensions never
exceed the target, the pasted content lies entirely inside the canvas (no
cropping), the output is exactly the target size, and a 2000×1000 source into
1024×1024 yields 1024×512 content at offset (0, 256). -/
theorem save_image_fit_spec (sw sh tw th : ℕ) (hsw : 0 < sw) (hsh : 0 < sh) :
    fitNewW sw sh tw th = ⌊(sw : ℚ) * fitScale sw sh tw th⌋
    ∧ fitNewH sw sh tw th = ⌊(sh : ℚ) * fitScale sw sh tw th⌋
    ∧ 0 ≤ fitNewW sw sh tw th ∧ 0 ≤ fitNewH sw sh tw th
    ∧ fitNewW sw sh tw th ≤ (tw : ℤ) ∧ fitNewH sw sh tw th ≤ (th : ℤ)
    ∧ 0 ≤ pasteX sw sh tw th ∧ 0 ≤ pasteY sw sh tw th
    ∧ pasteX sw sh tw th + fitNewW sw sh tw th ≤ (tw : ℤ)
    ∧ pasteY sw sh tw th + fitNewH sw sh tw th ≤ (th : ℤ)
    ∧ (save_image_geometry sw sh tw th).outW = (tw : ℤ)
    ∧ (save_image_geometry sw sh tw th).outH = (th : ℤ)
    ∧ save_image_geometry 2000 1000 1024 1024 = ⟨1024, 512, 0, 256, 1024, 1024⟩ := by
  have hWle := fitNewW_le sw sh tw th hsw
  have hHle := fitNewH_le sw sh tw th hsh
  have hXb := fdiv_two_bounds ((tw : ℤ) - fitNewW sw sh tw th) (by omega)
  have hYb := fdiv_two_bounds ((th : ℤ) - fitNewH sw sh tw th) (by omega)
  have hX : pasteX sw sh tw th = ((tw : ℤ) - fitNewW sw sh tw th).fdiv 2 := rfl
  have hY : pasteY sw sh tw th = ((th : ℤ) - fitNewH sw sh tw th).fdiv 2 := rfl
  have hW0 : fitNewW 2000 1000 1024 1024 = 1024 := by
    norm_num [fitNewW, fitScale, min_def]
  have hH0 : fitNewH 2000 1000 1024 1024 = 512 := by
    norm_num [fitNewH, fitScale, min_def]
  have hX0 : pasteX 2000 1000 1024 1024 = 0 := by
    rw [pasteX, hW0]; decide
  have hY0 : pasteY 2000 1000 1024 1024 = 256 := by
    rw [pasteY, hH0]; decide
  refine ⟨rfl, rfl, fitNewW_nonneg sw sh tw th, fitNewH_nonneg sw sh tw th,
    hWle, hHle, ?_, ?_, ?_, ?_, rfl, rfl, ?_⟩
  · rw [hX]; exact hXb.1
  · rw [hY]; exact hYb.1
  · rw [hX]; omega
  · rw [hY]; omega
  · simp [save_image_geometry, hW0, hH0, hX0, hY0]

theorem save_image_fit_spec_witness :
    0 ≤ fitNewW 2000 1000 1024 1024
    ∧ fitNewW 2000 1000 1024 1024 ≤ (1024 : ℤ) :=
  ⟨(save_image_fit_spec 2000 1000 1024 1024 (by norm_num) (by norm_num)).2.2.1,
   (save_image_fit_spec 2000 1000 1024 1024 (by norm_num) (by norm_num)).2.2.2.2.1⟩

/-- C3 counterexample: with every attempt answered HTTP 400 and
`max_retries = 3`, the call performs two backoff sleeps (1 s and 2 s) and only
then fails with the wrapped "failed after 3 attempts" error — it does not fail
immediately and it does retry. -/
theorem http400_retried_not_immediate :
    generate_image_with_retry all400 3
      = (GenResult.error (.failedAfter 3 (.validationError "bad request")), [1, 2])
    ∧ (generate_image_with_retry all400 3).2 ≠ [] := by
  decide

/-- C3 (amended): an HTTP 400 response makes the code raise
`Exception("Validation error: ...")` inside the `try`, which the generic
`except Exception` handler catches: while attempts remain the call sleeps
`2^attempt` seconds and retries, and after `max_retries` attempts it fails
with the wrapped error carrying the last validation message.  Nothing is
surfaced immediately and no content-policy distinction exists. -/
theorem http400_generic_retry_exhaustion (responses : ℕ → GeminiResponse) (n : ℕ)
    (h : ∀ i, (responses i).status = 400) :
    generate_image_with_retry responses (n + 1)
      = (GenResult.error (.failedAfter (n + 1)
          (.validationError ((responses n).errorMessage))),
         (List.range n).map (fun t => 2 ^ t)) := by
  have haux := retryFrom_400_aux responses h (n + 1) n 0 (by omega)
  simpa [generate_image_with_retry, List.range_eq_range'] using haux

theorem http400_generic_retry_exhaustion_witness :
    generate_image_with_retry all400 3
      = (GenResult.error (.failedAfter 3 (.validationError "bad request")),
         [1, 2]) := by
  have happ := http400_generic_retry_exhaustion all400 2 (fun _ => rfl)
  simpa [List.range_succ] using happ

/-- C4 counterexample: with every attempt answered HTTP 500 and
`max_retries = 3`, the call fails on the very first attempt with
`HTTP Error: 500` and an empty sleep trace — no exponential backoff, no
retry, and the terminal error carries no attempt count. -/
theorem http500_fails_immediately :
    generate_image_with_retry all500 3
      = (GenResult.error (.httpError 500 "server boom"), [])
    ∧ (generate_image_with_retry all500 3).2 = [] := by
  decide

/-- C4 (amended): a non-2xx status other than 429 and 400 on the first attempt
makes `raise_for_status` throw `HTTPStatusError`, whose handler re-raises
`Exception("HTTP Error: {status} — {body}")`; an exception raised inside an
`except` clause is not caught by the sibling `except Exception`, so the call
fails immediately with the upstream status and body — no retry, no backoff
sleep, and no attempt count in the error. -/
theorem upstream_error_no_retry (responses : ℕ → GeminiResponse) (mr : ℕ)
    (hmr : 0 < mr) (h429 : (responses 0).status ≠ 429)
    (h400 : (responses 0).status ≠ 400)
    (hne : (responses 0).status < 200 ∨ 300 ≤ (responses 0).status) :
    generate_image_with_retry responses mr
      = (GenResult.error (.httpError (responses 0).status (responses 0).body), []) := by
  obtain ⟨m, rfl⟩ : ∃ m, mr = m + 1 := ⟨mr - 1, by omega⟩
  simp [generate_image_with_retry, retryFrom, attemptOutcome_other _ h429 h400 hne]

theorem upstream_error_no_retry_witness :
    generate_image_with_retry all500 3
      = (GenResult.error (.httpError 500 "server boom"), []) := by
  have happ := upstream_error_no_retry all500 3 (by norm_num) (by decide) (by decide)
    (by decide)
  simpa using happ

/-- C5: for every width and positive height, `get_aspect_ratio` returns the
name of the allowed ratio minimizing `|ratio − width/height|`, the first
element of the list winning ties; in particular (1024,1024) yields `1:1`,
(1920,1080) yields `16:9` and (1000,1900) yields `9:16`. -/
theorem get_aspect_ratio_first_argmin :
    (∀ w h : ℕ, 0 < h → ∃ p, get_aspect_ratio w h = p.1
        ∧ FirstMin ((w : ℚ) / (h : ℚ)) allowedRatios p)
    ∧ get_aspect_ratio 1024 1024 = "1:1"
    ∧ get_aspect_ratio 1920 1080 = "16:9"
    ∧ get_aspect_ratio 1000 1900 = "9:16" := by
  refine ⟨fun w h _ => ?_, ?_, ?_, ?_⟩
  · obtain ⟨p, hp, hFM⟩ := firstArgmin_spec ((w : ℚ) / (h : ℚ)) allowedRatios
      (by simp [allowedRatios])
    exact ⟨p, arFold_none_eq_firstArgmin _ _ _ _ p hp, hFM⟩
  · norm_num [get_aspect_ratio, allowedRatios, arFold, arDiff, ratioVal, rat_abs_eval]
  · norm_num [get_aspect_ratio, allowedRatios, arFold, arDiff, ratioVal, rat_abs_eval]
  · norm_num [get_aspect_ratio, allowedRatios, arFold, arDiff, ratioVal, rat_abs_eval]

theorem get_aspect_ratio_first_argmin_witness :
    ∃ p, get_aspect_ratio 1024 768 = p.1
      ∧ FirstMin ((1024 : ℚ) / (768 : ℚ)) allowedRatios p :=
  get_aspect_ratio_first_argmin.1 1024 768 (by norm_num)

/-- C6: `fill_black_borders` returns every RGB image pixel-identical to its
input — both when the four scanned border thicknesses are zero and when
borders are detected (detection is logged only) — and each thickness is
determined by the first row/column from the respective edge in which some
channel of some pixel exceeds 30. -/
theorem fill_black_borders_identity (img : RGBImage) :
    fill_black_borders img = img
    ∧ (∀ y, y < scan_top img → rowNonBlack img y = false)
    ∧ (scan_top img ≠ 0 → rowNonBlack img (scan_top img) = true)
    ∧ (∀ k, k < scan_bottom img → rowNonBlack img (img.height - 1 - k) = false)
    ∧ (scan_bottom img ≠ 0 →
        rowNonBlack img (img.height - 1 - scan_bottom img) = true)
    ∧ (∀ x, x < scan_left img → colNonBlack img x = false)
    ∧ (scan_left img ≠ 0 → colNonBlack img (scan_left img) = true)
    ∧ (∀ k, k < scan_right img → colNonBlack img (img.width - 1 - k) = false)
    ∧ (scan_right img ≠ 0 →
        colNonBlack img (img.width - 1 - scan_right img) = true) := by
  refine ⟨by simp [fill_black_borders], ?_, ?_, ?_, ?_, ?_, ?_, ?_, ?_⟩
  · intro y hy
    cases hs : scanFirst (rowNonBlack img) 0 img.height with
    | none => rw [scan_top_none img hs] at hy; omega
    | some y0 =>
      obtain ⟨_, _, _, hall⟩ := scanFirst_some _ _ _ _ hs
      rw [scan_top_some img y0 hs] at hy
      exact hall y (by omega) hy
  · intro hne
    cases hs : scanFirst (rowNonBlack img) 0 img.height with
    | none => rw [scan_top_none img hs] at hne; omega
    | some y0 =>
      obtain ⟨hp, _, _, _⟩ := scanFirst_some _ _ _ _ hs
      rw [scan_top_some img y0 hs]
      exact hp
  · intro k hk
    cases hs : scanLast (rowNonBlack img) img.height with
    | none => rw [scan_bottom_none img hs] at hk; omega
    | some y0 =>
      obtain ⟨_, hy0, hall⟩ := scanLast_some _ _ _ hs
      rw [scan_bottom_some img y0 hs] at hk
      exact hall (img.height - 1 - k) (by omega) (by omega)
  · intro hne
    cases hs : scanLast (rowNonBlack img) img.height with
    | none => rw [scan_bottom_none img hs] at hne; omega
    | some y0 =>
      obtain ⟨hp, hy0, _⟩ := scanLast_some _ _ _ hs
      rw [scan_bottom_some img y0 hs] at hne
      rw [scan_bottom_some img y0 hs]
      have harith : img.height - 1 - (img.height - 1 - y0) = y0 := by omega
      rw [harith]
      exact hp
  · intro x hx
    cases hs : scanFirst (colNonBlack img) 0 img.width with
    | none => rw [scan_left_none img hs] at hx; omega
    | some x0 =>
      obtain ⟨_, _, _, hall⟩ := scanFirst_some _ _ _ _ hs
      rw [scan_left_some img x0 hs] at hx
      exact hall x (by omega) hx
  · intro hne
    cases hs : scanFirst (colNonBlack img) 0 img.width with
    | none => rw [scan_left_none img hs] at hne; omega
    | some x0 =>
      obtain ⟨hp, _, _, _⟩ := scanFirst_some _ _ _ _ hs
      rw [scan_left_some img x0 hs]
      exact hp
  · intro k hk
    cases hs : scanLast (colNonBlack img) img.width with
    | none => rw [scan_right_none img hs] at hk; omega
    | some x0 =>
      obtain ⟨_, hx0, hall⟩ := scanLast_some _ _ _ hs
      rw [scan_right_some img x0 hs] at hk
      exact hall (img.width - 1 - k) (by omega) (by omega)
  · intro hne
    cases hs : scanLast (colNonBlack img) img.width with
    | none => rw [scan_right_none img hs] at hne; omega
    | some x0 =>
      obtain ⟨hp, hx0, _⟩ := scanLast_some _ _ _ hs
      rw [scan_right_some img x0 hs] at hne
      rw [scan_right_some img x0 hs]
      have harith : img.width - 1 - (img.width - 1 - x0) = x0 := by omega
      rw [harith]
      exact hp

theorem fill_black_borders_identity_witness :
    fill_black_borders imgTopBorder = imgTopBorder
    ∧ rowNonBlack imgTopBorder (scan_top imgTopBorder) = true :=
  ⟨(fill_black_borders_identity imgTopBorder).1,
   (fill_black_borders_identity imgTopBorder).2.2.1 (by decide)⟩

/-- C7: under non-concurrent access, recording metadata for a filename and
then listing surfaces an entry with exactly the recorded field values, while
a record previously stored under a different filename survives the
read-modify-write insertion; a missing or malformed metadata file is loaded
as the empty store, not an error. -/
theorem metadata_record_list_roundtrip (fs : MetaFile) (f g : String)
    (rg : ImageRecord) (w hgt : ℕ) (pr md : String) (gt : ℚ) (cr : String)
    (files : List (String × ℕ)) (sz : ℕ)
    (hg : List.lookup g (load_metadata fs) = some rg) (hne : g ≠ f)
    (hf : (f, sz) ∈ files) (hpng : endsWithPng f = true) :
    List.lookup f (load_metadata (add_image_metadata fs f w hgt pr md gt cr))
      = some ⟨w, hgt, pr, md, gt, cr⟩
    ∧ List.lookup g (load_metadata (add_image_metadata fs f w hgt pr md gt cr))
      = some rg
    ∧ (⟨f, sz, .known w, .known hgt, pr, md, gt, cr⟩ : ListedImage)
      ∈ list_images files (add_image_metadata fs f w hgt pr md gt cr)
    ∧ load_metadata MetaFile.missing = [] ∧ load_metadata MetaFile.malformed = [] := by
  have hload : load_metadata (add_image_metadata fs f w hgt pr md gt cr)
      = dictInsert (load_metadata fs) f ⟨w, hgt, pr, md, gt, cr⟩ := rfl
  refine ⟨?_, ?_, ?_, rfl, rfl⟩
  · rw [hload]
    exact lookup_dictInsert_self _ _ _
  · rw [hload, lookup_dictInsert_other _ _ _ _ hne]
    exact hg
  · have hmem : (f, sz) ∈ files.filter (fun pr2 => endsWithPng pr2.1) :=
      List.mem_filter.mpr ⟨hf, hpng⟩
    have hentry : listedEntryOf
        (load_metadata (add_image_metadata fs f w hgt pr md gt cr)) f sz
        = ⟨f, sz, .known w, .known hgt, pr, md, gt, cr⟩ := by
      rw [listedEntryOf, hload, lookup_dictInsert_self]
    have hmem2 : (⟨f, sz, .known w, .known hgt, pr, md, gt, cr⟩ : ListedImage)
        ∈ (files.filter (fun pr2 => endsWithPng pr2.1)).map
            (fun pr2 => listedEntryOf
              (load_metadata (add_image_metadata fs f w hgt pr md gt cr))
              pr2.1 pr2.2) :=
      List.mem_map.mpr ⟨(f, sz), hmem, hentry⟩
    exact (sortByCreatedDesc_perm _).mem_iff.mpr hmem2

theorem metadata_record_list_roundtrip_witness :
    List.lookup "a.png"
      (load_metadata (add_image_metadata fsB "a.png" 10 20 "p" "m" 2
        "2024-02-02T00:00:00"))
      = some ⟨10, 20, "p", "m", 2, "2024-02-02T00:00:00"⟩
    ∧ List.lookup "b.png"
      (load_metadata (add_image_metadata fsB "a.png" 10 20 "p" "m" 2
        "2024-02-02T00:00:00"))
      = some recB := by
  have happ := metadata_record_list_roundtrip fsB "a.png" "b.png" recB 10 20 "p" "m" 2
    "2024-02-02T00:00:00" [("a.png", 5), ("b.png", 7)] 5 (by decide) (by decide)
    (by simp) (by decide)
  exact ⟨happ.1, happ.2.1⟩

/-- C8: `GET /api/images` does not return the stored records: the handler
returns a hardcoded mock list with a single `test_image.png` entry and never
consults the storage directory or the metadata map, while `list_images` (which
the handler never calls) lists the actual `.png` files: for a store holding
one file `a.png` the two disagree. -/
theorem api_list_images_returns_mock :
    api_list_images ≠ list_images demoFiles MetaFile.missing
    ∧ (list_images demoFiles MetaFile.missing).map (fun e => e.filename) = ["a.png"]
    ∧ api_list_images.map (fun e => e.filename) = ["test_image.png"] := by
  decide

/-- C9 counterexample: for
`data:image/png;base64,QUJD,QUJD` the handler decodes `QUJD`, the segment
between the first and second commas, whereas stripping everything up to and
including the first comma leaves `QUJD,QUJD` — a different payload. -/
theorem save_image_strip_second_segment :
    api_save_image some (some "data:image/png;base64,QUJD,QUJD") = .saved "QUJD"
    ∧ dropThroughFirstComma ("data:image/png;base64,QUJD,QUJD".data)
      = some ("QUJD,QUJD".data)
    ∧ ("QUJD" : String) ≠ "QUJD,QUJD" := by
  decide

/-- C9 (amended): when `image_b64` starts with `data:image` the handler
replaces it with `split(',')[1]` — the segment between the first and second
comma, which is everything after the first comma only when no second comma
exists — before decoding; when such a value contains no comma at all the
subscript raises `IndexError` and the request fails with status 500, not 400;
whenever decoding of the remaining payload fails the handler returns the
status-400 invalid-base64 error, and a successful decode proceeds with
exactly the decoded bytes. -/
theorem api_save_image_strip_spec (decode : String → Option String) (s t : String)
    (hpre : startsWithDataImage s = true) (hseg : (splitComma s)[1]? = some t) :
    (decode t = none →
      api_save_image decode (some s) = .badRequest "Invalid base64 data")
    ∧ (∀ b, decode t = some b → api_save_image decode (some s) = .saved b)
    ∧ (∀ u : String, startsWithDataImage u = true → (splitComma u)[1]? = none →
        api_save_image decode (some u) = .serverError)
    ∧ (∀ u : String, u ≠ "" → startsWithDataImage u = false → decode u = none →
        api_save_image decode (some u) = .badRequest "Invalid base64 data") := by
  have hs := startsWithDataImage_ne_empty s hpre
  refine ⟨?_, ?_, ?_, ?_⟩
  · intro hdec
    simp [api_save_image, hs, hpre, hseg, hdec]
  · intro b hdec
    simp [api_save_image, hs, hpre, hseg, hdec]
  · intro u hu hnone
    have hu0 := startsWithDataImage_ne_empty u hu
    simp [api_save_image, hu0, hu, hnone]
  · intro u hu0 hu hdec
    simp [api_save_image, hu0, hu, hdec]

theorem api_save_image_strip_spec_witness :
    api_save_image (fun _ => none) (some "data:image/png;base64,QUJD,QUJD")
      = .badRequest "Invalid base64 data" :=
  (api_save_image_strip_spec (fun _ => none) "data:image/png;base64,QUJD,QUJD"
    "QUJD" (by decide) (by decide)).1 rfl

/-- C10: on an image in which every channel of every pixel is at most 30,
each of the four border scans of `fill_black_borders` returns 0 — the same
value returned for an image with no black border at all, so the result does
not distinguish an all-black canvas from a borderless one. -/
theorem all_black_scans_zero (img : RGBImage)
    (h : ∀ x, x < img.width → ∀ y, y < img.height →
      pixelNonBlack (img.pixel x y) = false) :
    scan_top img = 0 ∧ scan_bottom img = 0
    ∧ scan_left img = 0 ∧ scan_right img = 0 := by
  have hrow : ∀ y, y < img.height → rowNonBlack img y = false := by
    intro y hy
    simp only [rowNonBlack, List.any_eq_false, List.mem_range]
    intro x hx
    simp [h x hx y hy]
  have hcol : ∀ x, x < img.width → colNonBlack img x = false := by
    intro x hx
    simp only [colNonBlack, List.any_eq_false, List.mem_range]
    intro y hy
    simp [h x hx y hy]
  refine ⟨?_, ?_, ?_, ?_⟩
  · rw [scan_top, scanFirst_eq_none _ _ _ (fun z hz1 hz2 => hrow z (by omega))]
    rfl
  · rw [scan_bottom, scanLast_eq_none _ _ (fun z hz => hrow z hz)]
  · rw [scan_left, scanFirst_eq_none _ _ _ (fun z hz1 hz2 => hcol z (by omega))]
    rfl
  · rw [scan_right, scanLast_eq_none _ _ (fun z hz => hcol z hz)]

theorem all_black_scans_zero_witness :
    scan_top imgAllBlack = 0 ∧ scan_bottom imgAllBlack = 0
    ∧ scan_left imgAllBlack = 0 ∧ scan_right imgAllBlack = 0 :=
  all_black_scans_zero imgAllBlack (by decide)

end Neyroevnet
